import Mathlib

/-! Signaling relay of the two-party video chat (`server.js`) and its client (`App.jsx`).

The server keeps one process-wide `rooms` map (room id ↦ set of connection ids) and
registers five handlers per connection.  The embedding below passes the state
explicitly: a `Server` holds the `rooms` map and the live sockets, and every handler
returns the new state together with the list of messages it delivered.

Room ids, connection ids and payloads are JavaScript strings here.  A JavaScript `Map`
is an association list in insertion order, a `Set` a duplicate-free list in insertion
order (the order matters: the handler reads `otherUsers[0]`).

The transport library is not part of the repository; its documented behaviour is used:
every socket is in the channel named by its own id, `socket.join(r)` puts the socket in
channel `r`, `socket.to(ch).emit` reaches every live socket in channel `ch` that is not
in the channel named by the id of the emitting socket (the broadcast is built with that
channel as its exception, so the emitting socket and every socket that joined a room of
that name are left out), and `socket.emit` reaches the emitting socket only.  A connection
gets an id that no live connection has, its handlers run only while it is live, and its
`disconnect` handler runs once, after it has left every channel.
-/

namespace VideoChat

/-! ## JavaScript `Map` and `Set` -/

/-- `Map.prototype.get`: the value stored under `key`, if any. -/
def mapGet {α : Type} : List (String × α) → String → Option α
  | [], _ => none
  | (k, v) :: rest, key => if k = key then some v else mapGet rest key

/-- `Map.prototype.has`. -/
def mapHas {α : Type} (m : List (String × α)) (key : String) : Bool :=
  (mapGet m key).isSome

/-- `Map.prototype.set`: overwrite in place, or append a new entry. -/
def mapSet {α : Type} : List (String × α) → String → α → List (String × α)
  | [], key, v => [(key, v)]
  | (k, x) :: rest, key, v =>
    if k = key then (k, v) :: rest else (k, x) :: mapSet rest key v

/-- `Map.prototype.delete`. -/
def mapDelete {α : Type} : List (String × α) → String → List (String × α)
  | [], _ => []
  | (k, x) :: rest, key =>
    if k = key then mapDelete rest key else (k, x) :: mapDelete rest key

/-- `Set.prototype.add`: a set keeps one copy of each element. -/
def setAdd (s : List String) (x : String) : List String :=
  if x ∈ s then s else s ++ [x]

/-- `Set.prototype.delete`. -/
def setDelete (s : List String) (x : String) : List String :=
  s.filter (fun y => y ≠ x)

/-! ## Messages and state -/

/-- The events the relay sends to clients, with their payloads. -/
inductive Msg where
  | roomFull
  | otherUser (peerId : String)
  | userJoined (newId : String)
  | offer (sdp : String) (sender : String)
  | answer (sdp : String) (sender : String)
  | iceCandidate (candidate : String) (sender : String)
  | userDisconnected (departedId : String)
  deriving DecidableEq

/-- One message handed to one connection. -/
structure Delivery where
  recipient : String
  msg : Msg
  deriving DecidableEq

/-- The per-connection object: `socket.id`, the `socket.roomId` property the handlers
set, and the channels entered through `socket.join`. -/
structure Socket where
  id : String
  roomId : Option String
  joined : List String
  deriving DecidableEq

/-- The process state: the `rooms` map and the live connections. -/
structure Server where
  rooms : List (String × List String)
  sockets : List Socket
  deriving DecidableEq

/-- Payload of an incoming `offer` or `answer`. -/
structure SdpData where
  target : String
  sdp : String
  deriving DecidableEq

/-- Payload of an incoming `ice-candidate`. -/
structure CandidateData where
  target : String
  candidate : String
  deriving DecidableEq

/-- Membership of a socket in a channel: its own id, or a channel it joined. -/
def inChannel (s : Socket) (ch : String) : Bool :=
  decide (s.id = ch) || decide (ch ∈ s.joined)

/-- Recipients of `socket.to(ch).emit(..)` on the socket with id `sender`: the live
sockets in channel `ch` that are not in the channel named `sender`, which holds the
emitting socket and every socket that joined a room of that name. -/
def toChannel (sockets : List Socket) (sender : String) (ch : String) : List String :=
  (sockets.filter (fun s => !(inChannel s sender) && inChannel s ch)).map (fun s => s.id)

/-- `socket.to(ch).emit(msg)`. -/
def emitTo (sockets : List Socket) (sender : String) (ch : String) (m : Msg) :
    List Delivery :=
  (toChannel sockets sender ch).map (fun r => ⟨r, m⟩)

/-- JavaScript truthiness of a string: only the empty string is falsy. -/
def truthy (s : String) : Bool := decide (s ≠ "")

/-- The effect of `socket.join(roomId); socket.roomId = roomId` on the socket `sid`. -/
def joinChannel (sockets : List Socket) (sid : String) (roomId : String) : List Socket :=
  sockets.map (fun s =>
    if s.id = sid then { s with roomId := some roomId, joined := setAdd s.joined roomId }
    else s)

/-! ## The handlers of `server.js` -/

/-- Handler of `join-room` on the socket with id `sid`. -/
def onJoinRoom (sv : Server) (sid : String) (roomId : String) : Server × List Delivery :=
  let rooms1 := if mapHas sv.rooms roomId then sv.rooms else mapSet sv.rooms roomId []
  let room := (mapGet rooms1 roomId).getD []
  if room.length ≥ 2 then
    ({ sv with rooms := rooms1 }, [⟨sid, Msg.roomFull⟩])
  else
    let room2 := setAdd room sid
    let rooms2 := mapSet rooms1 roomId room2
    let sockets2 := joinChannel sv.sockets sid roomId
    let otherUsers := room2.filter (fun id => id ≠ sid)
    match otherUsers with
    | [] => (⟨rooms2, sockets2⟩, [])
    | o :: _ =>
      (⟨rooms2, sockets2⟩,
        ⟨sid, Msg.otherUser o⟩ :: emitTo sockets2 sid o (Msg.userJoined sid))

/-- Handler of `offer`. -/
def onOffer (sv : Server) (sid : String) (data : SdpData) : Server × List Delivery :=
  (sv, emitTo sv.sockets sid data.target (Msg.offer data.sdp sid))

/-- Handler of `answer`. -/
def onAnswer (sv : Server) (sid : String) (data : SdpData) : Server × List Delivery :=
  (sv, emitTo sv.sockets sid data.target (Msg.answer data.sdp sid))

/-- Handler of `ice-candidate`. -/
def onIceCandidate (sv : Server) (sid : String) (data : CandidateData) :
    Server × List Delivery :=
  (sv, emitTo sv.sockets sid data.target (Msg.iceCandidate data.candidate sid))

/-- Handler of `disconnect`, run on the socket object `socket`; `sv.sockets` are the
connections that are live when it runs. -/
def onDisconnect (sv : Server) (socket : Socket) : Server × List Delivery :=
  match socket.roomId with
  | none => (sv, [])
  | some rid =>
    if truthy rid then
      match mapGet sv.rooms rid with
      | none => (sv, [])
      | some room =>
        let room2 := setDelete room socket.id
        let out := emitTo sv.sockets socket.id rid (Msg.userDisconnected socket.id)
        if room2.length = 0 then
          ({ sv with rooms := mapDelete (mapSet sv.rooms rid room2) rid }, out)
        else
          ({ sv with rooms := mapSet sv.rooms rid room2 }, out)
    else (sv, [])

/-! ## Event loop -/

/-- What the transport hands to the server, one at a time. -/
inductive Event where
  | connect (id : String)
  | joinRoom (id : String) (roomId : String)
  | offer (id : String) (data : SdpData)
  | answer (id : String) (data : SdpData)
  | iceCandidate (id : String) (data : CandidateData)
  | disconnect (id : String)
  deriving DecidableEq

/-- The live socket with id `sid`. -/
def findSocket (sockets : List Socket) (sid : String) : Option Socket :=
  sockets.find? (fun s => decide (s.id = sid))

/-- One turn of the event loop.  A connection gets an id no live connection has; events
of a connection that is not live do not occur; a disconnected socket has left the live
set (and every channel) when its `disconnect` handler runs. -/
def step (sv : Server) : Event → Server × List Delivery
  | Event.connect id =>
    match findSocket sv.sockets id with
    | some _ => (sv, [])
    | none => ({ sv with sockets := sv.sockets ++ [⟨id, none, []⟩] }, [])
  | Event.joinRoom id roomId =>
    match findSocket sv.sockets id with
    | some _ => onJoinRoom sv id roomId
    | none => (sv, [])
  | Event.offer id data =>
    match findSocket sv.sockets id with
    | some _ => onOffer sv id data
    | none => (sv, [])
  | Event.answer id data =>
    match findSocket sv.sockets id with
    | some _ => onAnswer sv id data
    | none => (sv, [])
  | Event.iceCandidate id data =>
    match findSocket sv.sockets id with
    | some _ => onIceCandidate sv id data
    | none => (sv, [])
  | Event.disconnect id =>
    match findSocket sv.sockets id with
    | some s =>
      onDisconnect { sv with sockets := sv.sockets.filter (fun x => x.id ≠ id) } s
    | none => (sv, [])

/-- The state at start-up: `new Map()` and no connection. -/
def init : Server := ⟨[], []⟩

/-- The state after a sequence of events. -/
def run (sv : Server) : List Event → Server
  | [] => sv
  | e :: es => run (step sv e).1 es

/-! ## The handlers in closed form -/

/-- The participant set the `join-room` handler reads: the stored one, or the fresh
empty set it has just created. -/
def roomOf (sv : Server) (roomId : String) : List String :=
  (mapGet sv.rooms roomId).getD []

/-- The notifications of a successful `join-room`. -/
def joinNotes (sockets2 : List Socket) (sid : String) (room2 : List String) :
    List Delivery :=
  match room2.filter (fun id => id ≠ sid) with
  | [] => []
  | o :: _ => ⟨sid, Msg.otherUser o⟩ :: emitTo sockets2 sid o (Msg.userJoined sid)

/-! ## Invariants of the reachable states -/

/-- What holds of every state the event loop can reach. -/
structure Inv (sv : Server) : Prop where
  idsNodup : (sv.sockets.map Socket.id).Nodup
  keysNodup : (sv.rooms.map Prod.fst).Nodup
  roomOk : ∀ r m, mapGet sv.rooms r = some m → m.Nodup ∧ 1 ≤ m.length ∧ m.length ≤ 2
  joinedIn : ∀ s ∈ sv.sockets, ∀ r ∈ s.joined, ∃ m, mapGet sv.rooms r = some m ∧ s.id ∈ m
  roomIdJoined : ∀ s ∈ sv.sockets, ∀ r, s.roomId = some r → r ∈ s.joined

/-- A full room `r1` and a third live connection `C`. -/
def fullRoomState : Server :=
  ⟨[("r1", ["A", "B"])],
   [⟨"A", some "r1", ["r1"]⟩, ⟨"B", some "r1", ["r1"]⟩, ⟨"C", none, []⟩]⟩

/-! ## Routing of `offer`, `answer`, `ice-candidate` -/

/-- Three connections; `X` has joined a room whose id is the connection id of `A`. -/
def overhearState : Server :=
  run init [Event.connect "A", Event.connect "B", Event.connect "X",
    Event.joinRoom "X" "A"]

/-- A paired room: `A` and `B` in room `r1`, nobody joined a room named by an id. -/
def pairedState : Server :=
  run init [Event.connect "A", Event.connect "B", Event.joinRoom "A" "r1",
    Event.joinRoom "B" "r1"]

/-! ## Pairing notifications -/

/-- `X` sits in a room named by the connection id of `P`; `P` waits in room `r1`. -/
def listenerState : Server :=
  run init [Event.connect "P", Event.connect "X", Event.connect "S",
    Event.joinRoom "X" "P", Event.joinRoom "P" "r1"]

/-! ## Disconnect -/

/-- `P` joined room `a`, where `Q` waits, and then room `b`. -/
def twoRoomState : Server :=
  run init [Event.connect "Q", Event.connect "P", Event.joinRoom "Q" "a",
    Event.joinRoom "P" "a", Event.joinRoom "P" "b"]

/-! ## Membership in one room only -/

/-- A `join-room` is a first join when the room id is a non-empty string and the
connection has no recorded room yet (what the client does: one `join-room` per socket,
with a non-blank room id). -/
def firstJoin (sv : Server) : Event → Bool
  | Event.joinRoom id roomId =>
    truthy roomId &&
      (match findSocket sv.sockets id with
       | some s => s.roomId.isNone
       | none => true)
  | _ => true

/-- Every `join-room` of the sequence, run from `sv`, is a first join. -/
def singleJoin (sv : Server) : List Event → Bool
  | [] => true
  | e :: es => firstJoin sv e && singleJoin (step sv e).1 es

/-- Under first joins only: every member of a room is a live connection recorded in
that room, and recorded rooms are non-empty strings. -/
structure InvSingle (sv : Server) : Prop where
  idsNodup : (sv.sockets.map Socket.id).Nodup
  memberLive : ∀ r m, mapGet sv.rooms r = some m → ∀ x ∈ m,
    ∃ s ∈ sv.sockets, s.id = x ∧ s.roomId = some r
  roomIdTruthy : ∀ s ∈ sv.sockets, s.roomId ≠ some ""

/-! ## The client (`App.jsx`)

The component state (`useState`) and the refs (`useRef`) are fields of one record; the
peer connections created so far live in a list and `peerConnectionRef` is an index into
it, so that a closed connection stays observable after the ref is cleared.  The browser
primitives are modelled by their documented effect: `track.stop()` ends the track,
`pc.close()` puts the connection in state `closed`, `socket.disconnect()` disconnects;
each is without effect when repeated. -/

/-- A `MediaStreamTrack` of the local stream. -/
structure Track where
  kind : String
  enabled : Bool
  ended : Bool
  deriving DecidableEq

/-- `RTCPeerConnection.connectionState`. -/
inductive ConnState where
  | new | connecting | connected | disconnected | failed | closed
  deriving DecidableEq

/-- The client side socket: whether it is connected, the events it listens to and the
messages it has emitted (event name, payload). -/
structure ClientSocket where
  connected : Bool
  listeners : List String
  sent : List (String × String)
  deriving DecidableEq

/-- What a `<video>` element shows (`srcObject`). -/
inductive StreamHandle where
  | localStream
  | remoteStream
  deriving DecidableEq

/-- The state of the `VideoChat` component.  A video ref is `none` while its element is
not mounted, and holds the `srcObject` of the element otherwise. -/
structure Client where
  roomId : String
  joined : Bool
  connected : Bool
  videoEnabled : Bool
  audioEnabled : Bool
  error : String
  localVideoRef : Option (Option StreamHandle)
  remoteVideoRef : Option (Option StreamHandle)
  socketRef : Option ClientSocket
  peerConnectionRef : Option Nat
  localStreamRef : Option (List Track)
  remoteUserIdRef : Option String
  pcs : List ConnState
  deriving DecidableEq

/-- The component as first rendered. -/
def Client.initial : Client :=
  { roomId := "", joined := false, connected := false, videoEnabled := true,
    audioEnabled := true, error := "", localVideoRef := none, remoteVideoRef := none,
    socketRef := none, peerConnectionRef := none, localStreamRef := none,
    remoteUserIdRef := none, pcs := [] }

/-- The value a rejected promise carries; `message` is read by the handler. -/
structure JsError where
  message : String
  deriving DecidableEq

/-- `track.stop()`. -/
def Track.stop (t : Track) : Track := { t with ended := true }

/-- `pc.close()` on the connection with index `i`. -/
def closePc (pcs : List ConnState) (i : Nat) : List ConnState :=
  pcs.set i ConnState.closed

/-- The code points `String.prototype.trim` removes (white space and line terminators). -/
def jsWhitespace (c : Char) : Bool :=
  let n := c.toNat
  n = 0x09 || n = 0x0A || n = 0x0B || n = 0x0C || n = 0x0D || n = 0x20 || n = 0xA0 ||
  n = 0x1680 || (0x2000 ≤ n && n ≤ 0x200A) || n = 0x2028 || n = 0x2029 || n = 0x202F ||
  n = 0x205F || n = 0x3000 || n = 0xFEFF

/-- The test `!roomId.trim()`: trimming leaves the empty string. -/
def blank (s : String) : Bool := s.data.all jsWhitespace

/-- The function `cleanup`. -/
def cleanup (c : Client) : Client :=
  let c1 : Client :=
    match c.localStreamRef with
    | some tracks => { c with localStreamRef := some (tracks.map Track.stop) }
    | none => c
  let c2 : Client :=
    match c1.peerConnectionRef with
    | some i => { c1 with pcs := closePc c1.pcs i }
    | none => c1
  match c2.socketRef with
  | some sock => { c2 with socketRef := some { sock with connected := false } }
  | none => c2

/-- The function `initializeMedia`; `media` is the outcome of `getUserMedia`.  It
returns the stream, or rethrows the error after setting the message. -/
def initializeMedia (c : Client) (media : Except JsError (List Track)) :
    Client × Except JsError (List Track) :=
  match media with
  | Except.ok stream =>
    ({ c with
        localStreamRef := some stream,
        localVideoRef := c.localVideoRef.map (fun _ => some StreamHandle.localStream) },
      Except.ok stream)
  | Except.error err =>
    ({ c with error := "Failed to access camera/microphone. Please grant permissions." },
      Except.error err)

/-- The listeners `handleJoinRoom` registers, in order. -/
def signalingEvents : List String :=
  ["room-full", "other-user", "user-joined", "offer", "answer", "ice-candidate",
   "user-disconnected"]

/-- The function `handleJoinRoom`; `media` is the outcome of `getUserMedia`, should it
be called. -/
def handleJoinRoom (c : Client) (media : Except JsError (List Track)) : Client :=
  if blank c.roomId then { c with error := "Please enter a room ID" }
  else
    match initializeMedia { c with error := "" } media with
    | (c1, Except.ok _) =>
      { c1 with
          socketRef := some ⟨true, signalingEvents, [("join-room", c.roomId)]⟩,
          joined := true }
    | (c1, Except.error err) =>
      { c1 with error := if err.message ≠ "" then err.message else "Failed to join room" }

/-- The function `handleLeaveRoom`. -/
def handleLeaveRoom (c : Client) : Client :=
  { cleanup c with joined := false, connected := false, roomId := "",
                   remoteUserIdRef := none }

/-- The listener of `user-disconnected`. -/
def onUserDisconnected (c : Client) : Client :=
  let c1 : Client :=
    { c with connected := false,
             remoteVideoRef := c.remoteVideoRef.map (fun _ => none),
             remoteUserIdRef := none }
  match c1.peerConnectionRef with
  | some i => { c1 with pcs := closePc c1.pcs i, peerConnectionRef := none }
  | none => c1

/-- The handler `pc.onconnectionstatechange` of the connection with index `i`. -/
def onConnectionStateChange (c : Client) (i : Nat) : Client :=
  match c.pcs.get? i with
  | some st =>
    if st = ConnState.disconnected ∨ st = ConnState.failed then { c with connected := false }
    else c
  | none => c

/-- The browser reports state `failed` on connection `i` and fires the handler. -/
def connectionFailed (c : Client) (i : Nat) : Client :=
  onConnectionStateChange { c with pcs := c.pcs.set i ConnState.failed } i

/-- A client in a call: camera and microphone running, one open peer connection. -/
def inCall : Client :=
  { roomId := "r1", joined := true, connected := true, videoEnabled := true,
    audioEnabled := true, error := "", localVideoRef := some (some StreamHandle.localStream),
    remoteVideoRef := some (some StreamHandle.remoteStream),
    socketRef := some ⟨true, signalingEvents, [("join-room", "r1")]⟩,
    peerConnectionRef := some 0,
    localStreamRef := some [⟨"video", true, false⟩, ⟨"audio", true, false⟩],
    remoteUserIdRef := some "B", pcs := [ConnState.connected] }

/-! # Theorems -/

/-! ## Facts about the map and set operations -/

theorem mapGet_mapSet {α : Type} (m : List (String × α)) (k k2 : String) (v : α) :
    mapGet (mapSet m k v) k2 = if k = k2 then some v else mapGet m k2 := by
  induction m with
  | nil => simp [mapSet, mapGet]
  | cons p rest ih =>
    obtain ⟨a, x⟩ := p
    by_cases h : a = k
    · subst h
      by_cases h2 : a = k2 <;> simp [mapSet, mapGet, h2]
    · by_cases h2 : a = k2
      · subst h2
        simp [mapSet, mapGet, h, Ne.symm h]
      · simp [mapSet, mapGet, h, h2, ih]

theorem mapGet_mapDelete {α : Type} (m : List (String × α)) (k k2 : String) :
    mapGet (mapDelete m k) k2 = if k = k2 then none else mapGet m k2 := by
  induction m with
  | nil => simp [mapDelete, mapGet]
  | cons p rest ih =>
    obtain ⟨a, x⟩ := p
    by_cases h : a = k
    · subst h
      by_cases h2 : a = k2
      · subst h2
        simpa [mapDelete, mapGet] using ih
      · simp [mapDelete, mapGet, h2, ih]
    · by_cases h2 : a = k2
      · subst h2
        simp [mapDelete, mapGet, h, Ne.symm h]
      · simp [mapDelete, mapGet, h, h2, ih]

theorem mapSet_same {α : Type} (m : List (String × α)) (k : String) (v : α)
    (h : mapGet m k = some v) : mapSet m k v = m := by
  induction m with
  | nil => simp [mapGet] at h
  | cons p rest ih =>
    obtain ⟨a, x⟩ := p
    by_cases h1 : a = k
    · subst h1
      simp [mapGet] at h
      simp [mapSet, h]
    · simp [mapGet, h1] at h
      simp [mapSet, h1, ih h]

theorem mapDelete_mapSet {α : Type} (m : List (String × α)) (k : String) (v : α) :
    mapDelete (mapSet m k v) k = mapDelete m k := by
  induction m with
  | nil => simp [mapSet, mapDelete]
  | cons p rest ih =>
    obtain ⟨a, x⟩ := p
    by_cases h1 : a = k
    · subst h1
      simp [mapSet, mapDelete]
    · simp [mapSet, mapDelete, h1, ih]

theorem mapGet_of_mem {α : Type} (m : List (String × α)) (k : String) (v : α)
    (hn : (m.map Prod.fst).Nodup) (h : (k, v) ∈ m) : mapGet m k = some v := by
  induction m with
  | nil => simp at h
  | cons p rest ih =>
    obtain ⟨a, x⟩ := p
    simp only [List.map_cons, List.nodup_cons] at hn
    rcases List.mem_cons.mp h with h1 | h1
    · injection h1 with h2 h3
      subst h2; subst h3
      simp [mapGet]
    · have hk : k ∈ rest.map Prod.fst := List.mem_map.mpr ⟨(k, v), h1, rfl⟩
      have hne : a ≠ k := fun e => hn.1 (e ▸ hk)
      simp [mapGet, hne, ih hn.2 h1]

theorem keys_mapSet {α : Type} (m : List (String × α)) (k : String) (v : α) :
    (mapSet m k v).map Prod.fst =
      if k ∈ m.map Prod.fst then m.map Prod.fst else m.map Prod.fst ++ [k] := by
  induction m with
  | nil => simp [mapSet]
  | cons p rest ih =>
    obtain ⟨a, x⟩ := p
    by_cases h1 : a = k
    · subst h1
      simp [mapSet]
    · have h2 : k ≠ a := Ne.symm h1
      by_cases h3 : k ∈ rest.map Prod.fst
      · simp [mapSet, h1, h2, ih, h3]
      · simp [mapSet, h1, h2, ih, h3]

theorem keys_mapSet_nodup {α : Type} (m : List (String × α)) (k : String) (v : α)
    (hn : (m.map Prod.fst).Nodup) : ((mapSet m k v).map Prod.fst).Nodup := by
  rw [keys_mapSet]
  by_cases h : k ∈ m.map Prod.fst
  · simp only [h, if_true]; exact hn
  · simp only [h, if_false]
    exact List.Nodup.append hn (List.nodup_singleton k)
      (by simpa [List.disjoint_singleton] using h)

theorem keys_mapDelete_sublist {α : Type} (m : List (String × α)) (k : String) :
    List.Sublist ((mapDelete m k).map Prod.fst) (m.map Prod.fst) := by
  induction m with
  | nil => simp [mapDelete]
  | cons p rest ih =>
    obtain ⟨a, x⟩ := p
    by_cases h1 : a = k
    · simp only [mapDelete, h1, if_true, List.map_cons]
      exact List.Sublist.cons _ ih
    · simp only [mapDelete, h1, if_false, List.map_cons]
      exact List.Sublist.cons₂ _ ih

theorem setAdd_nodup (s : List String) (x : String) (h : s.Nodup) : (setAdd s x).Nodup := by
  unfold setAdd
  by_cases hx : x ∈ s
  · simp [hx, h]
  · simp only [hx, if_false]
    exact List.Nodup.append h (List.nodup_singleton x)
      (by simpa [List.disjoint_singleton] using hx)

theorem mem_setAdd (s : List String) (x y : String) : y ∈ setAdd s x ↔ y ∈ s ∨ y = x := by
  unfold setAdd
  by_cases hx : x ∈ s
  · simp only [hx, if_true]
    constructor
    · exact Or.inl
    · rintro (h | h)
      · exact h
      · exact h ▸ hx
  · simp [hx]

theorem setAdd_length_le (s : List String) (x : String) :
    (setAdd s x).length ≤ s.length + 1 := by
  unfold setAdd
  by_cases hx : x ∈ s <;> simp [hx]

theorem mem_setDelete (s : List String) (x y : String) :
    y ∈ setDelete s x ↔ y ∈ s ∧ y ≠ x := by
  simp [setDelete]

theorem setDelete_of_not_mem (s : List String) (x : String) (h : x ∉ s) :
    setDelete s x = s := by
  unfold setDelete
  apply List.filter_eq_self.mpr
  intro a ha
  have : a ≠ x := fun e => h (e ▸ ha)
  simp [this]

theorem mapSet_mapSet {α : Type} (m : List (String × α)) (k : String) (v w : α) :
    mapSet (mapSet m k v) k w = mapSet m k w := by
  induction m with
  | nil => simp [mapSet]
  | cons p rest ih =>
    obtain ⟨a, x⟩ := p
    by_cases h1 : a = k
    · subst h1
      simp [mapSet]
    · simp [mapSet, h1, ih]

/-! ## The handlers in closed form -/

theorem onJoinRoom_eq (sv : Server) (sid r : String) :
    onJoinRoom sv sid r =
      if 2 ≤ (roomOf sv r).length then (sv, [⟨sid, Msg.roomFull⟩])
      else (⟨mapSet sv.rooms r (setAdd (roomOf sv r) sid), joinChannel sv.sockets sid r⟩,
            joinNotes (joinChannel sv.sockets sid r) sid (setAdd (roomOf sv r) sid)) := by
  unfold onJoinRoom roomOf joinNotes
  cases h : mapGet sv.rooms r with
  | none =>
    simp only [mapHas, h, Option.isSome_none, Bool.false_eq_true, if_false, mapGet_mapSet,
      if_true, Option.getD_some, Option.getD_none, List.length_nil, ge_iff_le,
      mapSet_mapSet]
    have h0 : ¬ (2 ≤ 0) := by decide
    simp only [h0, if_false]
    generalize List.filter (fun id => decide (id ≠ sid)) (setAdd [] sid) = l
    cases l <;> rfl
  | some m =>
    simp only [mapHas, h, Option.isSome_some, if_true, Option.getD_some, ge_iff_le]
    by_cases h2 : 2 ≤ m.length
    · simp [h2]
    · simp only [h2, if_false]
      generalize List.filter (fun id => decide (id ≠ sid)) (setAdd m sid) = l
      cases l <;> rfl

theorem onDisconnect_eq (sv : Server) (socket : Socket) (rid : String) (room : List String)
    (h1 : socket.roomId = some rid) (h2 : rid ≠ "") (h3 : mapGet sv.rooms rid = some room) :
    onDisconnect sv socket =
      (⟨if (setDelete room socket.id).length = 0 then mapDelete sv.rooms rid
          else mapSet sv.rooms rid (setDelete room socket.id), sv.sockets⟩,
        emitTo sv.sockets socket.id rid (Msg.userDisconnected socket.id)) := by
  unfold onDisconnect
  simp only [h1, truthy, h3, mapDelete_mapSet]
  by_cases h4 : (setDelete room socket.id).length = 0 <;> simp [h2, h4]

theorem onDisconnect_noop (sv : Server) (socket : Socket)
    (h : socket.roomId = none ∨ socket.roomId = some "" ∨
      ∃ rid, socket.roomId = some rid ∧ mapGet sv.rooms rid = none) :
    onDisconnect sv socket = (sv, []) := by
  unfold onDisconnect
  rcases h with h | h | ⟨rid, h, h2⟩
  · simp [h]
  · simp [h, truthy]
  · simp [h, h2]

/-! ## Invariants of the reachable states -/

theorem findSocket_some {l : List Socket} {sid : String} {s : Socket}
    (h : findSocket l sid = some s) : s ∈ l ∧ s.id = sid := by
  unfold findSocket at h
  refine ⟨List.mem_of_find?_eq_some h, ?_⟩
  have := List.find?_some h
  simpa using this

theorem findSocket_none {l : List Socket} {sid : String}
    (h : findSocket l sid = none) : ∀ s ∈ l, s.id ≠ sid := by
  unfold findSocket at h
  intro s hs
  have := List.find?_eq_none.mp h s hs
  simpa using this

theorem findSocket_of_mem {l : List Socket} {s : Socket}
    (hn : (l.map Socket.id).Nodup) (hs : s ∈ l) : findSocket l s.id = some s := by
  induction l with
  | nil => simp at hs
  | cons a rest ih =>
    simp only [List.map_cons, List.nodup_cons] at hn
    rcases List.mem_cons.mp hs with h1 | h1
    · subst h1
      simp [findSocket]
    · have hne : a.id ≠ s.id := by
        intro e
        exact hn.1 (e ▸ List.mem_map.mpr ⟨s, h1, rfl⟩)
      have := ih hn.2 h1
      unfold findSocket at this ⊢
      simp [List.find?_cons, hne, this]

theorem joinChannel_ids (l : List Socket) (sid r : String) :
    (joinChannel l sid r).map Socket.id = l.map Socket.id := by
  unfold joinChannel
  rw [List.map_map]
  apply List.map_congr_left
  intro s _
  by_cases h : s.id = sid <;> simp [h]

theorem roomOf_ok (sv : Server) (hi : Inv sv) (r : String) :
    (roomOf sv r).Nodup ∧ (roomOf sv r).length ≤ 2 := by
  unfold roomOf
  cases h : mapGet sv.rooms r with
  | none => simp
  | some m =>
    have := hi.roomOk r m h
    simp [this.1, this.2.2]

theorem roomOf_of_get (sv : Server) (r : String) (m : List String)
    (h : mapGet sv.rooms r = some m) : roomOf sv r = m := by
  simp [roomOf, h]

theorem inv_init : Inv init := by
  constructor <;> simp [init, mapGet]

theorem inv_connect (sv : Server) (hi : Inv sv) (id : String)
    (h : findSocket sv.sockets id = none) :
    Inv { sv with sockets := sv.sockets ++ [⟨id, none, []⟩] } := by
  have hne := findSocket_none h
  constructor
  · simp only [List.map_append, List.map_cons, List.map_nil]
    refine List.Nodup.append hi.idsNodup (List.nodup_singleton id) ?_
    simp only [List.disjoint_singleton, List.mem_map, not_exists, not_and]
    intro s hs e
    exact hne s hs e
  · exact hi.keysNodup
  · exact hi.roomOk
  · intro s hs r hr
    rcases List.mem_append.mp hs with h1 | h1
    · exact hi.joinedIn s h1 r hr
    · simp only [List.mem_singleton] at h1
      subst h1
      simp at hr
  · intro s hs r hr
    rcases List.mem_append.mp hs with h1 | h1
    · exact hi.roomIdJoined s h1 r hr
    · simp only [List.mem_singleton] at h1
      subst h1
      simp at hr

theorem inv_joinRoom (sv : Server) (hi : Inv sv) (sid r : String) :
    Inv (onJoinRoom sv sid r).1 := by
  rw [onJoinRoom_eq]
  by_cases hfull : 2 ≤ (roomOf sv r).length
  · simpa [hfull] using hi
  · simp only [hfull, if_false]
    have hro := roomOf_ok sv hi r
    constructor
    · simpa [joinChannel_ids] using hi.idsNodup
    · exact keys_mapSet_nodup _ _ _ hi.keysNodup
    · intro k m hk
      simp only [mapGet_mapSet] at hk
      by_cases hrk : r = k
      · subst hrk
        simp only [if_true, Option.some.injEq] at hk
        subst hk
        refine ⟨setAdd_nodup _ _ hro.1, ?_, ?_⟩
        · have : sid ∈ setAdd (roomOf sv r) sid := (mem_setAdd _ _ _).mpr (Or.inr rfl)
          exact List.length_pos_of_mem this
        · have := setAdd_length_le (roomOf sv r) sid
          omega
      · simp only [hrk, if_false] at hk
        exact hi.roomOk k m hk
    · intro t ht k hk
      simp only [joinChannel, List.mem_map] at ht
      obtain ⟨s, hs, rfl⟩ := ht
      simp only [mapGet_mapSet]
      by_cases hrk : r = k
      · subst hrk
        refine ⟨setAdd (roomOf sv r) sid, by simp, ?_⟩
        by_cases hsid : s.id = sid
        · simp only [hsid, if_true]
          exact (mem_setAdd _ _ _).mpr (Or.inr rfl)
        · simp only [hsid, if_false] at hk ⊢
          obtain ⟨m, hm, hmem⟩ := hi.joinedIn s hs r hk
          rw [roomOf_of_get sv r m hm]
          exact (mem_setAdd _ _ _).mpr (Or.inl hmem)
      · simp only [hrk, if_false]
        by_cases hsid : s.id = sid
        · simp only [hsid, if_true] at hk ⊢
          rcases (mem_setAdd _ _ _).mp hk with h1 | h1
          · obtain ⟨m, hm, hmem⟩ := hi.joinedIn s hs k h1
            exact ⟨m, hm, hsid ▸ hmem⟩
          · exact absurd h1.symm hrk
        · simp only [hsid, if_false] at hk ⊢
          exact hi.joinedIn s hs k hk
    · intro t ht k hk
      simp only [joinChannel, List.mem_map] at ht
      obtain ⟨s, hs, rfl⟩ := ht
      by_cases hsid : s.id = sid
      · simp only [hsid, if_true, Option.some.injEq] at hk ⊢
        exact (mem_setAdd _ _ _).mpr (Or.inr hk.symm)
      · simp only [hsid, if_false] at hk ⊢
        exact hi.roomIdJoined s hs k hk

theorem inv_drop (sv : Server) (hi : Inv sv) (sid : String) :
    Inv { sv with sockets := sv.sockets.filter (fun x => x.id ≠ sid) } := by
  constructor
  · exact List.Nodup.sublist (List.Sublist.map _ (List.filter_sublist _)) hi.idsNodup
  · exact hi.keysNodup
  · exact hi.roomOk
  · intro s hs r hr
    exact hi.joinedIn s (List.mem_of_mem_filter hs) r hr
  · intro s hs r hr
    exact hi.roomIdJoined s (List.mem_of_mem_filter hs) r hr

theorem inv_disconnect (sv : Server) (hi : Inv sv) (socket : Socket)
    (hgone : ∀ s ∈ sv.sockets, s.id ≠ socket.id) :
    Inv (onDisconnect sv socket).1 := by
  cases h1 : socket.roomId with
  | none => rw [onDisconnect_noop sv socket (Or.inl h1)]; exact hi
  | some rid =>
    by_cases h2 : rid = ""
    · rw [onDisconnect_noop sv socket (Or.inr (Or.inl (h2 ▸ h1)))]; exact hi
    · cases h3 : mapGet sv.rooms rid with
      | none => rw [onDisconnect_noop sv socket (Or.inr (Or.inr ⟨rid, h1, h3⟩))]; exact hi
      | some room =>
        rw [onDisconnect_eq sv socket rid room h1 h2 h3]
        have hroom := hi.roomOk rid room h3
        have hsub : (setDelete room socket.id).length ≤ room.length :=
          List.length_filter_le _ _
        constructor
        · exact hi.idsNodup
        · show (List.map Prod.fst (if _ then _ else _)).Nodup
          split
          · exact List.Nodup.sublist (keys_mapDelete_sublist _ _) hi.keysNodup
          · exact keys_mapSet_nodup _ _ _ hi.keysNodup
        · intro k m hk
          simp only at hk
          split at hk
          · rw [mapGet_mapDelete] at hk
            by_cases hrk : rid = k
            · simp [hrk] at hk
            · simp only [hrk, if_false] at hk
              exact hi.roomOk k m hk
          · rename_i hlen
            rw [mapGet_mapSet] at hk
            by_cases hrk : rid = k
            · simp only [hrk, if_true, Option.some.injEq] at hk
              subst hk
              refine ⟨List.Nodup.filter _ hroom.1, by omega, by omega⟩
            · simp only [hrk, if_false] at hk
              exact hi.roomOk k m hk
        · intro t ht k hk
          obtain ⟨m, hm, hmem⟩ := hi.joinedIn t ht k hk
          have htid := hgone t ht
          simp only
          by_cases hrk : rid = k
          · subst hrk
            rw [h3] at hm
            injection hm with hm
            subst hm
            have hin : t.id ∈ setDelete room socket.id :=
              (mem_setDelete _ _ _).mpr ⟨hmem, htid⟩
            have hlen : (setDelete room socket.id).length ≠ 0 :=
              Nat.pos_iff_ne_zero.mp (List.length_pos_of_mem hin)
            simp only [hlen, if_false, mapGet_mapSet, if_true]
            exact ⟨_, rfl, hin⟩
          · split
            · rw [mapGet_mapDelete]; simp only [hrk, if_false]; exact ⟨m, hm, hmem⟩
            · rw [mapGet_mapSet]; simp only [hrk, if_false]; exact ⟨m, hm, hmem⟩
        · exact hi.roomIdJoined

theorem filter_ne_id (l : List Socket) (sid : String) :
    ∀ s ∈ l.filter (fun x => x.id ≠ sid), s.id ≠ sid := by
  intro s hs
  have := (List.mem_filter.mp hs).2
  simpa using this

theorem inv_step (sv : Server) (hi : Inv sv) (e : Event) : Inv (step sv e).1 := by
  cases e with
  | connect id =>
    simp only [step]
    cases h : findSocket sv.sockets id with
    | none => exact inv_connect sv hi id h
    | some s => exact hi
  | joinRoom id r =>
    simp only [step]
    cases h : findSocket sv.sockets id with
    | none => exact hi
    | some s => exact inv_joinRoom sv hi id r
  | offer id d =>
    simp only [step]
    cases h : findSocket sv.sockets id <;> exact hi
  | answer id d =>
    simp only [step]
    cases h : findSocket sv.sockets id <;> exact hi
  | iceCandidate id d =>
    simp only [step]
    cases h : findSocket sv.sockets id <;> exact hi
  | disconnect id =>
    simp only [step]
    cases h : findSocket sv.sockets id with
    | none => exact hi
    | some s =>
      have hs := findSocket_some h
      apply inv_disconnect _ (inv_drop sv hi id)
      intro t ht
      rw [hs.2]
      exact filter_ne_id sv.sockets id t ht

theorem inv_run (sv : Server) (hi : Inv sv) (evs : List Event) : Inv (run sv evs) := by
  induction evs generalizing sv with
  | nil => exact hi
  | cons e es ih => exact ih _ (inv_step sv hi e)

theorem eq_singleton_of_setDelete_nil (m : List String) (x : String) (hn : m.Nodup)
    (hne : m ≠ []) (h : setDelete m x = []) : m = [x] := by
  have hall : ∀ y ∈ m, y = x := by
    intro y hy
    by_contra hyx
    have : y ∈ setDelete m x := (mem_setDelete _ _ _).mpr ⟨hy, hyx⟩
    rw [h] at this
    simp at this
  cases m with
  | nil => exact absurd rfl hne
  | cons a rest =>
    have ha : a = x := hall a (List.mem_cons_self _ _)
    cases rest with
    | nil => rw [ha]
    | cons b rest2 =>
      have hb : b = x := hall b (List.mem_cons_of_mem _ (List.mem_cons_self _ _))
      simp only [List.nodup_cons, List.mem_cons] at hn
      exact absurd (Or.inl (ha.trans hb.symm)) hn.1

theorem onDisconnect_removed (sv : Server)
    (hok : ∀ r m, mapGet sv.rooms r = some m → m.Nodup ∧ 1 ≤ m.length ∧ m.length ≤ 2)
    (s : Socket) (r : String) (m : List String) (hm : mapGet sv.rooms r = some m)
    (hgone : mapGet (onDisconnect sv s).1.rooms r = none) : m = [s.id] := by
  cases h1 : s.roomId with
  | none =>
    rw [onDisconnect_noop sv s (Or.inl h1)] at hgone
    simp [hm] at hgone
  | some rid =>
    by_cases h2 : rid = ""
    · rw [onDisconnect_noop sv s (Or.inr (Or.inl (h2 ▸ h1)))] at hgone
      simp [hm] at hgone
    · cases h3 : mapGet sv.rooms rid with
      | none =>
        rw [onDisconnect_noop sv s (Or.inr (Or.inr ⟨rid, h1, h3⟩))] at hgone
        simp [hm] at hgone
      | some room =>
        rw [onDisconnect_eq sv s rid room h1 h2 h3] at hgone
        simp only at hgone
        split at hgone
        · rename_i hlen
          rw [mapGet_mapDelete] at hgone
          by_cases hrk : rid = r
          · subst hrk
            rw [hm] at h3
            injection h3 with h3
            subst h3
            have hm2 := hok rid m hm
            have hne : m ≠ [] := by
              intro e0
              rw [e0] at hm2
              simp at hm2
            exact eq_singleton_of_setDelete_nil m s.id hm2.1 hne
              (List.length_eq_zero.mp hlen)
          · simp [hrk, hm] at hgone
        · rw [mapGet_mapSet] at hgone
          by_cases hrk : rid = r <;> simp [hrk, hm] at hgone

/-- A room leaves the map only through the `disconnect` of its last member. -/
theorem room_removed_only_when_empty (sv : Server) (hi : Inv sv) (e : Event) (r : String)
    (m : List String) (hm : mapGet sv.rooms r = some m)
    (hgone : mapGet (step sv e).1.rooms r = none) :
    ∃ sid, e = Event.disconnect sid ∧ m = [sid] := by
  cases e with
  | connect id =>
    simp only [step] at hgone
    cases h : findSocket sv.sockets id <;> simp [h, hm] at hgone
  | joinRoom id k =>
    simp only [step] at hgone
    cases h : findSocket sv.sockets id with
    | none => simp [h, hm] at hgone
    | some s =>
      simp only [h, onJoinRoom_eq] at hgone
      split at hgone
      · simp [hm] at hgone
      · simp only [mapGet_mapSet] at hgone
        by_cases hk : k = r <;> simp [hk, hm] at hgone
  | offer id d =>
    simp only [step, onOffer] at hgone
    cases h : findSocket sv.sockets id <;> simp [h, hm] at hgone
  | answer id d =>
    simp only [step, onAnswer] at hgone
    cases h : findSocket sv.sockets id <;> simp [h, hm] at hgone
  | iceCandidate id d =>
    simp only [step, onIceCandidate] at hgone
    cases h : findSocket sv.sockets id <;> simp [h, hm] at hgone
  | disconnect id =>
    refine ⟨id, rfl, ?_⟩
    simp only [step] at hgone
    cases h : findSocket sv.sockets id with
    | none => simp [h, hm] at hgone
    | some s =>
      have hs := findSocket_some h
      simp only [h] at hgone
      have := onDisconnect_removed
        ⟨sv.rooms, sv.sockets.filter (fun x => x.id ≠ id)⟩ hi.roomOk s r m hm hgone
      rw [this, hs.2]

/-- C2: in every state reached from the empty registry by any sequence of events, the
keys of `rooms` are distinct, every room stored in the map holds one or two distinct
members (so no empty set stays in the map and none exceeds two), and a room that is in
the map before an event and absent after it was removed by the `disconnect` of its only
member. -/
theorem room_size_invariant (evs : List Event) :
    ((run init evs).rooms.map Prod.fst).Nodup ∧
    (∀ r m, (r, m) ∈ (run init evs).rooms → m.Nodup ∧ 1 ≤ m.length ∧ m.length ≤ 2) ∧
    (∀ e r m, mapGet (run init evs).rooms r = some m →
      mapGet (step (run init evs) e).1.rooms r = none →
      ∃ sid, e = Event.disconnect sid ∧ m = [sid]) := by
  have hi := inv_run init inv_init evs
  refine ⟨hi.keysNodup, ?_, ?_⟩
  · intro r m hmem
    exact hi.roomOk r m (mapGet_of_mem _ r m hi.keysNodup hmem)
  · intro e r m hm hgone
    exact room_removed_only_when_empty _ hi e r m hm hgone

/-- C3: when room `r` holds exactly two members, the `join-room` handler run for any
connection `c` returns the state unchanged (the `rooms` map, every socket's channels and
`roomId`) and emits the single message `room-full`, to `c`; the same holds of the event
loop when `c` is a live connection. -/
theorem room_full_rejection (sv : Server) (c r : String) (m : List String)
    (hm : mapGet sv.rooms r = some m) (h2 : m.length = 2) :
    onJoinRoom sv c r = (sv, [⟨c, Msg.roomFull⟩]) ∧
    (∀ s, findSocket sv.sockets c = some s →
      step sv (Event.joinRoom c r) = (sv, [⟨c, Msg.roomFull⟩])) := by
  have h : onJoinRoom sv c r = (sv, [⟨c, Msg.roomFull⟩]) := by
    rw [onJoinRoom_eq, roomOf_of_get sv r m hm]
    simp [h2]
  refine ⟨h, ?_⟩
  intro s hs
  simp only [step, hs, h]

theorem room_full_rejection_witness :
    fullRoomState = run init [Event.connect "A", Event.connect "B", Event.connect "C",
      Event.joinRoom "A" "r1", Event.joinRoom "B" "r1"] ∧
    onJoinRoom fullRoomState "C" "r1" = (fullRoomState, [⟨"C", Msg.roomFull⟩]) ∧
    step fullRoomState (Event.joinRoom "C" "r1") = (fullRoomState, [⟨"C", Msg.roomFull⟩]) :=
  have h := room_full_rejection fullRoomState "C" "r1" ["A", "B"] (by decide) (by decide)
  ⟨by decide, h.1, h.2 ⟨"C", none, []⟩ (by decide)⟩

/-! ## Who receives a channel emission -/

theorem emitTo_cons (a : Socket) (l : List Socket) (sender ch : String) (m : Msg) :
    emitTo (a :: l) sender ch m =
      if a.id ≠ sender ∧ sender ∉ a.joined ∧ (a.id = ch ∨ ch ∈ a.joined) then
        ⟨a.id, m⟩ :: emitTo l sender ch m
      else emitTo l sender ch m := by
  unfold emitTo toChannel inChannel
  by_cases h : a.id ≠ sender ∧ sender ∉ a.joined ∧ (a.id = ch ∨ ch ∈ a.joined)
  · rw [if_pos h, List.filter_cons_of_pos (by simpa [and_assoc] using h)]
    rfl
  · rw [if_neg h, List.filter_cons_of_neg (by simpa [and_assoc] using h)]

theorem mem_emitTo (l : List Socket) (sender ch : String) (m : Msg) (d : Delivery) :
    d ∈ emitTo l sender ch m ↔
      d.msg = m ∧ ∃ s ∈ l, s.id = d.recipient ∧ s.id ≠ sender ∧ sender ∉ s.joined ∧
        (s.id = ch ∨ ch ∈ s.joined) := by
  induction l with
  | nil => simp [emitTo, toChannel]
  | cons a rest ih =>
    rw [emitTo_cons]
    by_cases h : a.id ≠ sender ∧ sender ∉ a.joined ∧ (a.id = ch ∨ ch ∈ a.joined)
    · rw [if_pos h, List.mem_cons, ih]
      constructor
      · rintro (h1 | ⟨h1, s, hs, h2⟩)
        · subst h1
          exact ⟨rfl, a, List.mem_cons_self _ _, rfl, h⟩
        · exact ⟨h1, s, List.mem_cons_of_mem _ hs, h2⟩
      · rintro ⟨h1, s, hs, h2⟩
        rcases List.mem_cons.mp hs with h3 | h3
        · subst h3
          left
          cases d
          simp only at h1 h2
          rw [h1, h2.1]
        · exact Or.inr ⟨h1, s, h3, h2⟩
    · rw [if_neg h, ih]
      constructor
      · rintro ⟨h1, s, hs, h2⟩
        exact ⟨h1, s, List.mem_cons_of_mem _ hs, h2⟩
      · rintro ⟨h1, s, hs, h2⟩
        rcases List.mem_cons.mp hs with h3 | h3
        · subst h3
          exact absurd h2.2 h
        · exact ⟨h1, s, h3, h2⟩

theorem emitTo_eq_nil (l : List Socket) (sender ch : String) (m : Msg)
    (h : ∀ s ∈ l, s.id ≠ sender → sender ∉ s.joined → s.id ≠ ch ∧ ch ∉ s.joined) :
    emitTo l sender ch m = [] := by
  apply List.eq_nil_iff_forall_not_mem.mpr
  intro d hd
  obtain ⟨_, s, hs, _, h2, h3, h4⟩ := (mem_emitTo _ _ _ _ _).mp hd
  have := h s hs h2 h3
  rcases h4 with h4 | h4
  · exact this.1 h4
  · exact this.2 h4

theorem emitTo_joinChannel (l : List Socket) (sid r ch : String) (m : Msg) :
    emitTo (joinChannel l sid r) sid ch m = emitTo l sid ch m := by
  induction l with
  | nil => rfl
  | cons a rest ih =>
    have hc : joinChannel (a :: rest) sid r =
        (if a.id = sid then { a with roomId := some r, joined := setAdd a.joined r } else a)
          :: joinChannel rest sid r := rfl
    rw [hc, emitTo_cons, emitTo_cons, ih]
    by_cases h : a.id = sid
    · simp [h]
    · simp [h]

/-- With distinct live ids, an emission whose channel holds, outside the channel of the
sender, only the live connection `R` is one message, to `R`. -/
theorem emitTo_single (l : List Socket) (sender ch R : String) (m : Msg)
    (hn : (l.map Socket.id).Nodup)
    (hlive : ∃ t ∈ l, t.id = R ∧ sender ∉ t.joined ∧ (t.id = ch ∨ ch ∈ t.joined))
    (hne : R ≠ sender)
    (honly : ∀ s ∈ l, s.id ≠ sender → sender ∉ s.joined →
      (s.id = ch ∨ ch ∈ s.joined) → s.id = R) :
    emitTo l sender ch m = [⟨R, m⟩] := by
  induction l with
  | nil => simp at hlive
  | cons a rest ih =>
    simp only [List.map_cons, List.nodup_cons] at hn
    rw [emitTo_cons]
    by_cases ha : a.id = R
    · have hin : sender ∉ a.joined ∧ (a.id = ch ∨ ch ∈ a.joined) := by
        obtain ⟨t, ht, ht2, ht3⟩ := hlive
        rcases List.mem_cons.mp ht with h3 | h3
        · exact h3 ▸ ht3
        · exact absurd (List.mem_map.mpr ⟨t, h3, by rw [ht2, ha]⟩) hn.1
      have h1 : a.id ≠ sender ∧ sender ∉ a.joined ∧ (a.id = ch ∨ ch ∈ a.joined) :=
        ⟨ha ▸ hne, hin⟩
      rw [if_pos h1, ha]
      have : emitTo rest sender ch m = [] := by
        apply emitTo_eq_nil
        intro s hs hs2 hs3
        have hsR : s.id ≠ R := by
          intro e
          exact hn.1 (List.mem_map.mpr ⟨s, hs, by rw [e, ha]⟩)
        constructor
        · intro e
          exact hsR (honly s (List.mem_cons_of_mem _ hs) hs2 hs3 (Or.inl e))
        · intro e
          exact hsR (honly s (List.mem_cons_of_mem _ hs) hs2 hs3 (Or.inr e))
      rw [this]
    · have h1 : ¬ (a.id ≠ sender ∧ sender ∉ a.joined ∧ (a.id = ch ∨ ch ∈ a.joined)) := by
        rintro ⟨h2, h3, h4⟩
        exact ha (honly a (List.mem_cons_self _ _) h2 h3 h4)
      rw [if_neg h1]
      apply ih hn.2
      · obtain ⟨t, ht, ht2⟩ := hlive
        rcases List.mem_cons.mp ht with h3 | h3
        · exact absurd (h3 ▸ ht2.1) ha
        · exact ⟨t, h3, ht2⟩
      · intro s hs
        exact honly s (List.mem_cons_of_mem _ hs)

/-- With distinct live ids, a live connection `R` that is in the channel and not in the
channel of the sender gets exactly one copy of the emission. -/
theorem emitTo_filter_recipient (l : List Socket) (sender ch R : String) (m : Msg)
    (hn : (l.map Socket.id).Nodup)
    (hlive : ∃ t ∈ l, t.id = R ∧ sender ∉ t.joined ∧ (t.id = ch ∨ ch ∈ t.joined))
    (hne : R ≠ sender) :
    (emitTo l sender ch m).filter (fun d => decide (d.recipient = R)) = [⟨R, m⟩] := by
  induction l with
  | nil => simp at hlive
  | cons a rest ih =>
    simp only [List.map_cons, List.nodup_cons] at hn
    rw [emitTo_cons]
    by_cases ha : a.id = R
    · have hin : sender ∉ a.joined ∧ (a.id = ch ∨ ch ∈ a.joined) := by
        obtain ⟨t, ht, ht2, ht3⟩ := hlive
        rcases List.mem_cons.mp ht with h3 | h3
        · exact h3 ▸ ht3
        · exact absurd (List.mem_map.mpr ⟨t, h3, by rw [ht2, ha]⟩) hn.1
      have h1 : a.id ≠ sender ∧ sender ∉ a.joined ∧ (a.id = ch ∨ ch ∈ a.joined) :=
        ⟨ha ▸ hne, hin⟩
      rw [if_pos h1, ha, List.filter_cons_of_pos (by simp)]
      have : (emitTo rest sender ch m).filter (fun d => decide (d.recipient = R)) = [] := by
        apply List.filter_eq_nil_iff.mpr
        intro d hd
        obtain ⟨_, s, hs, h2, _⟩ := (mem_emitTo _ _ _ _ _).mp hd
        have : d.recipient ≠ R := by
          intro e
          exact hn.1 (List.mem_map.mpr ⟨s, hs, by rw [h2, e, ha]⟩)
        simpa using this
      rw [this]
    · have hrest : (emitTo rest sender ch m).filter (fun d => decide (d.recipient = R))
          = [⟨R, m⟩] := by
        apply ih hn.2
        obtain ⟨t, ht, ht2⟩ := hlive
        rcases List.mem_cons.mp ht with h3 | h3
        · exact absurd (h3 ▸ ht2.1) ha
        · exact ⟨t, h3, ht2⟩
      split
      · rw [List.filter_cons_of_neg (by simpa using ha), hrest]
      · exact hrest

/-! ## Routing of `offer`, `answer`, `ice-candidate` -/

/-- C1, counterexample: after `X` joined a room named by the connection id of `A`, an
`offer` from `B` with target `A` is delivered to `A` and also to `X`, a connection whose
id is not the target. -/
theorem offer_reaches_other_connection :
    (step overhearState (Event.offer "B" ⟨"A", "v=0"⟩)).2 =
      [⟨"A", Msg.offer "v=0" "B"⟩, ⟨"X", Msg.offer "v=0" "B"⟩] ∧
    "X" ≠ "A" ∧ findSocket overhearState.sockets "X" = some ⟨"X", some "A", ["A"]⟩ := by
  decide

/-- C1, amended: a message forwarded by the `offer`, `answer` or `ice-candidate` handler
for sender `S` and target `T` goes only to live connections other than `S` that are in
channel `T` (own id `T`, or joined a room named `T`); when no live connection has joined
a room named `T`, every recipient is the connection whose id is `T`. -/
theorem forward_only_into_target_channel (sv : Server) (S T x : String) (d : Delivery)
    (hd : d ∈ (onOffer sv S ⟨T, x⟩).2 ∨ d ∈ (onAnswer sv S ⟨T, x⟩).2 ∨
      d ∈ (onIceCandidate sv S ⟨T, x⟩).2) :
    (∃ s ∈ sv.sockets, s.id = d.recipient ∧ s.id ≠ S ∧ (s.id = T ∨ T ∈ s.joined)) ∧
    ((∀ s ∈ sv.sockets, T ∉ s.joined) → d.recipient = T) := by
  have h : ∃ s ∈ sv.sockets, s.id = d.recipient ∧ s.id ≠ S ∧ (s.id = T ∨ T ∈ s.joined) := by
    have hmem : d ∈ emitTo sv.sockets S T d.msg := by
      rcases hd with hd | hd | hd
      · have := ((mem_emitTo _ _ _ _ _).mp hd).1
        rw [this]; exact hd
      · have := ((mem_emitTo _ _ _ _ _).mp hd).1
        rw [this]; exact hd
      · have := ((mem_emitTo _ _ _ _ _).mp hd).1
        rw [this]; exact hd
    obtain ⟨_, s, hs, h1, h2, _, h4⟩ := (mem_emitTo _ _ _ _ _).mp hmem
    exact ⟨s, hs, h1, h2, h4⟩
  refine ⟨h, ?_⟩
  intro hj
  obtain ⟨s, hs, h1, _, h3 | h3⟩ := h
  · rw [← h1, h3]
  · exact absurd h3 (hj s hs)

theorem forward_only_into_target_channel_witness :
    (⟨"A", Msg.offer "v=0" "B"⟩ : Delivery) ∈ (onOffer pairedState "B" ⟨"A", "v=0"⟩).2 ∧
    (∃ s ∈ pairedState.sockets, s.id = "A" ∧ s.id ≠ "B" ∧ (s.id = "A" ∨ "A" ∈ s.joined)) ∧
    ((∀ s ∈ pairedState.sockets, "A" ∉ s.joined) → "A" = "A") :=
  ⟨by decide,
   forward_only_into_target_channel pairedState "B" "A" "v=0" ⟨"A", Msg.offer "v=0" "B"⟩
     (Or.inl (by decide))⟩

/-- C5, counterexample: a connected sender that names itself as target gets nothing, so
the target does not receive exactly one `offer`; and a connected target `T` that joined
a room named by the id of the sender `S` gets nothing from `S` either. -/
theorem offer_to_self_not_delivered :
    findSocket (run init [Event.connect "S"]).sockets "S" = some ⟨"S", none, []⟩ ∧
    (onOffer (run init [Event.connect "S"]) "S" ⟨"S", "v=0"⟩).2 = [] ∧
    (step (run init [Event.connect "S"]) (Event.offer "S" ⟨"S", "v=0"⟩)).2 = [] ∧
    findSocket (run init [Event.connect "S", Event.connect "T",
      Event.joinRoom "T" "S"]).sockets "T" = some ⟨"T", some "S", ["S"]⟩ ∧
    (step (run init [Event.connect "S", Event.connect "T", Event.joinRoom "T" "S"])
      (Event.offer "S" ⟨"T", "v=0"⟩)).2 = [] := by
  decide

/-- C5, amended: in every reachable state, for a connected sender `S`, a connected target
`T` different from `S` that has not joined a room named by the id of `S`, and any
payload `x`, the `offer` handler leaves the state unchanged and delivers to `T` exactly
one message, the `offer` with `sdp = x` and `sender = S`; likewise `answer` and
`ice-candidate` (with `candidate = x`). -/
theorem forward_verbatim (evs : List Event) (S T x : String)
    (hS : (findSocket (run init evs).sockets S).isSome = true)
    (hT : (findSocket (run init evs).sockets T).isSome = true) (hne : S ≠ T)
    (hj : ∀ t ∈ (run init evs).sockets, t.id = T → S ∉ t.joined) :
    (step (run init evs) (Event.offer S ⟨T, x⟩)).1 = run init evs ∧
    (step (run init evs) (Event.offer S ⟨T, x⟩)).2.filter
      (fun d => decide (d.recipient = T)) = [⟨T, Msg.offer x S⟩] ∧
    (step (run init evs) (Event.answer S ⟨T, x⟩)).1 = run init evs ∧
    (step (run init evs) (Event.answer S ⟨T, x⟩)).2.filter
      (fun d => decide (d.recipient = T)) = [⟨T, Msg.answer x S⟩] ∧
    (step (run init evs) (Event.iceCandidate S ⟨T, x⟩)).1 = run init evs ∧
    (step (run init evs) (Event.iceCandidate S ⟨T, x⟩)).2.filter
      (fun d => decide (d.recipient = T)) = [⟨T, Msg.iceCandidate x S⟩] := by
  have hi := inv_run init inv_init evs
  obtain ⟨s, hs⟩ := Option.isSome_iff_exists.mp hS
  obtain ⟨t, ht⟩ := Option.isSome_iff_exists.mp hT
  have hlive : ∃ t ∈ (run init evs).sockets,
      t.id = T ∧ S ∉ t.joined ∧ (t.id = T ∨ T ∈ t.joined) :=
    ⟨t, (findSocket_some ht).1, (findSocket_some ht).2,
      hj t (findSocket_some ht).1 (findSocket_some ht).2, Or.inl (findSocket_some ht).2⟩
  simp only [step, hs, onOffer, onAnswer, onIceCandidate]
  exact ⟨trivial, emitTo_filter_recipient _ S T T _ hi.idsNodup hlive (Ne.symm hne),
    trivial, emitTo_filter_recipient _ S T T _ hi.idsNodup hlive (Ne.symm hne),
    trivial, emitTo_filter_recipient _ S T T _ hi.idsNodup hlive (Ne.symm hne)⟩

theorem forward_verbatim_witness :
    (step (run init [Event.connect "A", Event.connect "B", Event.joinRoom "A" "r1",
        Event.joinRoom "B" "r1"]) (Event.offer "B" ⟨"A", "X"⟩)).2.filter
      (fun d => decide (d.recipient = "A")) = [⟨"A", Msg.offer "X" "B"⟩] :=
  (forward_verbatim [Event.connect "A", Event.connect "B", Event.joinRoom "A" "r1",
    Event.joinRoom "B" "r1"] "B" "A" "X" (by decide) (by decide) (by decide)
    (by decide)).2.1

/-! ## Pairing notifications -/

/-- C4, counterexample: `r1` holds exactly `P`, and when `S` joins it the `user-joined`
message goes to `P` and also to `X`, which joined a room named by the id of `P`: three
messages, one of them to a connection other than `S` and `P`. -/
theorem user_joined_reaches_other_connection :
    mapGet listenerState.rooms "r1" = some ["P"] ∧
    (step listenerState (Event.joinRoom "S" "r1")).2 =
      [⟨"S", Msg.otherUser "P"⟩, ⟨"P", Msg.userJoined "S"⟩, ⟨"X", Msg.userJoined "S"⟩] := by
  decide

/-- C4, amended: `join-room`(r) from `S` when `r` is not in the registry stores `r` with
participant set `{S}` and emits nothing; when `r` holds exactly one member `P` different
from `S` it makes the set `{P, S}`, sends `other-user`(P) to `S` first, and every other
message is `user-joined`(S) to a live connection other than `S` in channel `P`; the
messages are exactly the two, `other-user`(P) to `S` and `user-joined`(S) to `P`, when
ids are distinct, `P` is a live connection that has not joined a room named by the id of
`S`, and no connection other than `S` has joined a room named by the id of `P`. -/
theorem pairing_notifications (sv : Server) (S r : String) :
    (mapGet sv.rooms r = none →
      onJoinRoom sv S r = (⟨mapSet sv.rooms r [S], joinChannel sv.sockets S r⟩, [])) ∧
    (∀ P, mapGet sv.rooms r = some [P] → P ≠ S →
      (onJoinRoom sv S r).1 = ⟨mapSet sv.rooms r [P, S], joinChannel sv.sockets S r⟩ ∧
      (∃ rest, (onJoinRoom sv S r).2 = ⟨S, Msg.otherUser P⟩ :: rest ∧
        ∀ d ∈ rest, d.msg = Msg.userJoined S ∧
          ∃ s ∈ sv.sockets, s.id = d.recipient ∧ s.id ≠ S ∧ (s.id = P ∨ P ∈ s.joined)) ∧
      ((sv.sockets.map Socket.id).Nodup → (∃ p ∈ sv.sockets, p.id = P ∧ S ∉ p.joined) →
        (∀ s ∈ sv.sockets, s.id ≠ S → P ∉ s.joined) →
        (onJoinRoom sv S r).2 = [⟨S, Msg.otherUser P⟩, ⟨P, Msg.userJoined S⟩])) := by
  constructor
  · intro h
    rw [onJoinRoom_eq]
    have h0 : roomOf sv r = [] := by simp [roomOf, h]
    simp [h0, setAdd, joinNotes]
  · intro P h hPS
    have h0 : roomOf sv r = [P] := roomOf_of_get sv r [P] h
    have hSP : S ≠ P := Ne.symm hPS
    have hSP2 : ¬ (P = S) := hPS
    have heq : onJoinRoom sv S r =
        (⟨mapSet sv.rooms r [P, S], joinChannel sv.sockets S r⟩,
          ⟨S, Msg.otherUser P⟩ :: emitTo sv.sockets S P (Msg.userJoined S)) := by
      rw [onJoinRoom_eq, h0]
      simp [setAdd, joinNotes, hSP, hSP2, emitTo_joinChannel, List.filter_cons]
    refine ⟨by rw [heq], ⟨_, by rw [heq], ?_⟩, ?_⟩
    · intro d hd
      obtain ⟨h1, s, hs, h2, h3, _, h5⟩ := (mem_emitTo _ _ _ _ _).mp hd
      exact ⟨h1, s, hs, h2, h3, h5⟩
    · intro hn hlive hj
      obtain ⟨p, hp, hpid, hpS⟩ := hlive
      have honly : ∀ s ∈ sv.sockets, s.id ≠ S → S ∉ s.joined →
          (s.id = P ∨ P ∈ s.joined) → s.id = P := by
        intro s hs h1 _ h2
        rcases h2 with h2 | h2
        · exact h2
        · exact absurd h2 (hj s hs h1)
      rw [heq, emitTo_single _ S P P _ hn ⟨p, hp, hpid, hpS, Or.inl hpid⟩ hPS honly]

theorem pairing_notifications_witness :
    mapGet (run init [Event.connect "A", Event.connect "B", Event.joinRoom "A" "r1"]).rooms
      "r1" = some ["A"] ∧
    (onJoinRoom (run init [Event.connect "A", Event.connect "B", Event.joinRoom "A" "r1"])
      "B" "r1").2 = [⟨"B", Msg.otherUser "A"⟩, ⟨"A", Msg.userJoined "B"⟩] :=
  ⟨by decide,
   ((pairing_notifications
      (run init [Event.connect "A", Event.connect "B", Event.joinRoom "A" "r1"])
      "B" "r1").2 "A" (by decide) (by decide)).2.2 (by decide) (by decide) (by decide)⟩

/-! ## Disconnect -/

/-- C6, counterexample: `P` is in the participant set of room `a` together with `Q`, yet
its `disconnect` leaves that set `{Q, P}` and nobody receives a message: the handler
cleans only the room recorded last in `socket.roomId`. -/
theorem disconnect_leaves_earlier_room :
    mapGet twoRoomState.rooms "a" = some ["Q", "P"] ∧
    step twoRoomState (Event.disconnect "P") =
      (⟨[("a", ["Q", "P"])], [⟨"Q", some "a", ["a"]⟩]⟩, []) := by
  decide

/-- C6, amended: in every reachable state, a live participant `P` whose recorded room
`socket.roomId = r` is a non-empty string is a member of room `r`, and handling its
`disconnect` deletes it from that set.  If `P` was the only member the room is removed
and only a connection whose own id is the string `r` can receive a message.  If a peer
`Q` remains, the set becomes `{Q}`, every message is `user-disconnected`(P) and goes to
`Q` or to a connection whose own id is `r`; when `Q` is a live connection that joined
`r` and has not joined a room named by the id of `P`, `Q` gets exactly one, and it is
the only message when no connection has id `r`. -/
theorem disconnect_cleanup (evs : List Event) (P r : String) (s : Socket)
    (hs : findSocket (run init evs).sockets P = some s) (hr : s.roomId = some r)
    (hne : r ≠ "") :
    (∃ m, mapGet (run init evs).rooms r = some m ∧ P ∈ m) ∧
    (mapGet (run init evs).rooms r = some [P] →
      mapGet (step (run init evs) (Event.disconnect P)).1.rooms r = none ∧
      ∀ d ∈ (step (run init evs) (Event.disconnect P)).2, d.recipient = r) ∧
    (∀ Q m, mapGet (run init evs).rooms r = some m → setDelete m P = [Q] →
      mapGet (step (run init evs) (Event.disconnect P)).1.rooms r = some [Q] ∧
      (∀ d ∈ (step (run init evs) (Event.disconnect P)).2,
        d.msg = Msg.userDisconnected P ∧ (d.recipient = Q ∨ d.recipient = r)) ∧
      ((∃ q ∈ (run init evs).sockets, q.id = Q ∧ r ∈ q.joined ∧ P ∉ q.joined) →
        (step (run init evs) (Event.disconnect P)).2.filter
            (fun d => decide (d.recipient = Q)) = [⟨Q, Msg.userDisconnected P⟩] ∧
        ((∀ t ∈ (run init evs).sockets, t.id ≠ r) →
          (step (run init evs) (Event.disconnect P)).2 =
            [⟨Q, Msg.userDisconnected P⟩]))) := by
  have hi := inv_run init inv_init evs
  obtain ⟨hsmem, hsid⟩ := findSocket_some hs
  obtain ⟨m0, hm0, hmem0⟩ := hi.joinedIn s hsmem r (hi.roomIdJoined s hsmem r hr)
  rw [hsid] at hmem0
  have hidrop := inv_drop _ hi P
  -- the result of the step, in closed form
  have hstep : step (run init evs) (Event.disconnect P) =
      (⟨if (setDelete m0 P).length = 0 then mapDelete (run init evs).rooms r
          else mapSet (run init evs).rooms r (setDelete m0 P),
        (run init evs).sockets.filter (fun x => x.id ≠ P)⟩,
       emitTo ((run init evs).sockets.filter (fun x => x.id ≠ P)) P r
         (Msg.userDisconnected P)) := by
    simp only [step, hs]
    rw [onDisconnect_eq
      ⟨(run init evs).rooms, (run init evs).sockets.filter (fun x => x.id ≠ P)⟩
      s r m0 hr hne hm0, hsid]
  -- who can be reached by the emission
  have hrecv : ∀ d ∈ (step (run init evs) (Event.disconnect P)).2,
      d.msg = Msg.userDisconnected P ∧
        (d.recipient = r ∨ (d.recipient ∈ m0 ∧ d.recipient ≠ P)) := by
    intro d hd
    rw [hstep] at hd
    obtain ⟨h1, t, ht, h2, h3, _, h4⟩ := (mem_emitTo _ _ _ _ _).mp hd
    refine ⟨h1, ?_⟩
    rcases h4 with h4 | h4
    · left; rw [← h2, h4]
    · right
      obtain ⟨m, hm, hmem⟩ := hidrop.joinedIn t ht r h4
      have hm2 : mapGet (run init evs).rooms r = some m := hm
      rw [hm0] at hm2
      injection hm2 with hm2
      subst hm2
      rw [← h2]
      exact ⟨hmem, h3⟩
  refine ⟨⟨m0, hm0, hmem0⟩, ?_, ?_⟩
  · intro hm
    rw [hm0] at hm
    injection hm with hm
    subst hm
    constructor
    · rw [hstep]
      simp [setDelete, mapGet_mapDelete]
    · intro d hd
      rcases (hrecv d hd).2 with h | ⟨h1, h2⟩
      · exact h
      · simp only [List.mem_singleton] at h1
        exact absurd h1 h2
  · intro Q m hm hQ
    rw [hm0] at hm
    injection hm with hm
    subst hm
    have hQmem : Q ∈ setDelete m0 P := by rw [hQ]; simp
    have hQP : Q ≠ P := ((mem_setDelete _ _ _).mp hQmem).2
    refine ⟨?_, ?_, ?_⟩
    · rw [hstep]
      simp [hQ, mapGet_mapSet]
    · intro d hd
      obtain ⟨h1, h2⟩ := hrecv d hd
      refine ⟨h1, ?_⟩
      rcases h2 with h2 | ⟨h2, h3⟩
      · exact Or.inr h2
      · left
        have : d.recipient ∈ setDelete m0 P := (mem_setDelete _ _ _).mpr ⟨h2, h3⟩
        rw [hQ] at this
        simpa using this
    · rintro ⟨q, hq, hqid, hqj, hqP⟩
      have hq2 : q ∈ (run init evs).sockets.filter (fun x => x.id ≠ P) := by
        apply List.mem_filter.mpr
        refine ⟨hq, ?_⟩
        simpa [hqid] using hQP
      constructor
      · rw [hstep]
        exact emitTo_filter_recipient _ P r Q _ hidrop.idsNodup
          ⟨q, hq2, hqid, hqP, Or.inr hqj⟩ hQP
      · intro hnor
        rw [hstep]
        apply emitTo_single _ P r Q _ hidrop.idsNodup ⟨q, hq2, hqid, hqP, Or.inr hqj⟩ hQP
        intro t ht _ _ h4
        rcases h4 with h4 | h4
        · exact absurd h4 (hnor t (List.mem_of_mem_filter ht))
        · obtain ⟨m, hm, hmem⟩ := hidrop.joinedIn t ht r h4
          have hm2 : mapGet (run init evs).rooms r = some m := hm
          rw [hm0] at hm2
          injection hm2 with hm2
          subst hm2
          have : t.id ∈ setDelete m0 P :=
            (mem_setDelete _ _ _).mpr ⟨hmem, filter_ne_id _ P t ht⟩
          rw [hQ] at this
          simpa using this

theorem disconnect_cleanup_witness :
    (step (run init [Event.connect "A", Event.connect "B", Event.joinRoom "A" "r1",
        Event.joinRoom "B" "r1"]) (Event.disconnect "A")).2 =
      [⟨"B", Msg.userDisconnected "A"⟩] :=
  ((((disconnect_cleanup [Event.connect "A", Event.connect "B", Event.joinRoom "A" "r1",
      Event.joinRoom "B" "r1"] "A" "r1" ⟨"A", some "r1", ["r1"]⟩
      (by decide) (by decide) (by decide)).2.2 "B" ["A", "B"]
      (by decide) (by decide)).2.2 (by decide)).2 (by decide))

/-! ## Membership in one room only -/

/-- C7, counterexample: one connection sends `join-room` for `a` and then for `b`; it is
then a member of both participant sets. -/
theorem member_of_two_rooms :
    mapGet (run init [Event.connect "S", Event.joinRoom "S" "a",
      Event.joinRoom "S" "b"]).rooms "a" = some ["S"] ∧
    mapGet (run init [Event.connect "S", Event.joinRoom "S" "a",
      Event.joinRoom "S" "b"]).rooms "b" = some ["S"] ∧
    "a" ≠ "b" := by
  decide

theorem eq_of_id_eq {l : List Socket} (hn : (l.map Socket.id).Nodup) {s t : Socket}
    (hs : s ∈ l) (ht : t ∈ l) (h : s.id = t.id) : s = t := by
  have h1 := findSocket_of_mem hn hs
  have h2 := findSocket_of_mem hn ht
  rw [h, h2] at h1
  injection h1 with h1
  exact h1.symm

theorem invSingle_init : InvSingle init := by
  constructor <;> simp [init, mapGet]

theorem invSingle_joinRoom (sv : Server) (hi : InvSingle sv) (sid r : String) (s0 : Socket)
    (hs0 : findSocket sv.sockets sid = some s0) (hnone : s0.roomId = none) (hr : r ≠ "") :
    InvSingle (onJoinRoom sv sid r).1 := by
  obtain ⟨hs0mem, hs0id⟩ := findSocket_some hs0
  rw [onJoinRoom_eq]
  by_cases hfull : 2 ≤ (roomOf sv r).length
  · simpa [hfull] using hi
  · simp only [hfull, if_false]
    constructor
    · simpa [joinChannel_ids] using hi.idsNodup
    · intro k m hk x hx
      simp only [mapGet_mapSet] at hk
      -- the image of a socket under `joinChannel`
      have himg : ∀ t ∈ sv.sockets, (if t.id = sid then
          { t with roomId := some r, joined := setAdd t.joined r } else t)
            ∈ joinChannel sv.sockets sid r := by
        intro t ht
        exact List.mem_map.mpr ⟨t, ht, rfl⟩
      by_cases hrk : r = k
      · subst hrk
        simp only [if_true, Option.some.injEq] at hk
        subst hk
        rcases (mem_setAdd _ _ _).mp hx with h1 | h1
        · cases hget : mapGet sv.rooms r with
          | none => simp [roomOf, hget] at h1
          | some m1 =>
            rw [roomOf_of_get sv r m1 hget] at h1
            obtain ⟨t, ht, htid, htr⟩ := hi.memberLive r m1 hget x h1
            subst htid
            refine ⟨_, himg t ht, ?_, ?_⟩
            · by_cases e : t.id = sid <;> simp [e]
            · by_cases e : t.id = sid <;> simp [e, htr]
        · subst h1
          refine ⟨_, himg s0 hs0mem, ?_, ?_⟩ <;> simp [hs0id]
      · simp only [hrk, if_false] at hk
        obtain ⟨t, ht, htid, htr⟩ := hi.memberLive k m hk x hx
        subst htid
        have hne : t.id ≠ sid := by
          intro e
          have : t = s0 := eq_of_id_eq hi.idsNodup ht hs0mem (e.trans hs0id.symm)
          rw [this, hnone] at htr
          simp at htr
        refine ⟨_, himg t ht, ?_, ?_⟩ <;> simp [hne, htr]
    · intro t ht
      simp only [joinChannel, List.mem_map] at ht
      obtain ⟨u, hu, rfl⟩ := ht
      by_cases e : u.id = sid
      · simp only [e, if_true, ne_eq, Option.some.injEq]
        exact hr
      · simp only [e, if_false]
        exact hi.roomIdTruthy u hu

theorem invSingle_disconnect (sv : Server) (hi : InvSingle sv) (sid : String) (s : Socket)
    (hs : findSocket sv.sockets sid = some s) :
    InvSingle (onDisconnect ⟨sv.rooms, sv.sockets.filter (fun x => x.id ≠ sid)⟩ s).1 := by
  obtain ⟨hsmem, hsid⟩ := findSocket_some hs
  have hkeep : ∀ t ∈ sv.sockets, t.id ≠ sid →
      t ∈ sv.sockets.filter (fun x => x.id ≠ sid) := by
    intro t ht hne
    exact List.mem_filter.mpr ⟨ht, by simpa using hne⟩
  have hnod : ((sv.sockets.filter (fun x => x.id ≠ sid)).map Socket.id).Nodup :=
    List.Nodup.sublist (List.Sublist.map _ (List.filter_sublist _)) hi.idsNodup
  have htruthy : ∀ t ∈ sv.sockets.filter (fun x => x.id ≠ sid), t.roomId ≠ some "" :=
    fun t ht => hi.roomIdTruthy t (List.mem_of_mem_filter ht)
  -- members of rooms other than the recorded one are other live connections
  have hother : ∀ k m, mapGet sv.rooms k = some m → s.roomId ≠ some k → ∀ x ∈ m,
      ∃ t ∈ sv.sockets.filter (fun x => x.id ≠ sid), t.id = x ∧ t.roomId = some k := by
    intro k m hk hsk x hx
    obtain ⟨t, ht, htid, htr⟩ := hi.memberLive k m hk x hx
    have hne : t.id ≠ sid := by
      intro e
      have : t = s := eq_of_id_eq hi.idsNodup ht hsmem (e.trans hsid.symm)
      exact hsk (this ▸ htr)
    exact ⟨t, hkeep t ht hne, htid, htr⟩
  cases h1 : s.roomId with
  | none =>
    rw [onDisconnect_noop _ s (Or.inl h1)]
    exact ⟨hnod, fun k m hk x hx => hother k m hk (by simp [h1]) x hx, htruthy⟩
  | some rid =>
    have h2 : rid ≠ "" := by
      intro e
      exact hi.roomIdTruthy s hsmem (e ▸ h1)
    cases h3 : mapGet sv.rooms rid with
    | none =>
      rw [onDisconnect_noop ⟨sv.rooms, sv.sockets.filter (fun x => x.id ≠ sid)⟩ s
        (Or.inr (Or.inr ⟨rid, h1, h3⟩))]
      refine ⟨hnod, ?_, htruthy⟩
      intro k m hk x hx
      apply hother k m hk _ x hx
      intro e
      rw [h1] at e
      injection e with e
      have hk2 : mapGet sv.rooms k = some m := hk
      rw [← e, h3] at hk2
      simp at hk2
    | some room =>
      rw [onDisconnect_eq ⟨sv.rooms, sv.sockets.filter (fun x => x.id ≠ sid)⟩ s rid room
        h1 h2 h3]
      refine ⟨hnod, ?_, htruthy⟩
      intro k m hk x hx
      simp only at hk
      by_cases hrk : rid = k
      · subst hrk
        have hm : m = setDelete room s.id := by
          split at hk
          · rw [mapGet_mapDelete] at hk; simp at hk
          · rw [mapGet_mapSet] at hk; simpa using hk.symm
        subst hm
        obtain ⟨hx1, hx2⟩ := (mem_setDelete _ _ _).mp hx
        obtain ⟨t, ht, htid, htr⟩ := hi.memberLive rid room h3 x hx1
        have hne : t.id ≠ sid := by rw [htid, ← hsid]; exact hx2
        exact ⟨t, hkeep t ht hne, htid, htr⟩
      · have hk2 : mapGet sv.rooms k = some m := by
          split at hk
          · rw [mapGet_mapDelete] at hk; simpa [hrk] using hk
          · rw [mapGet_mapSet] at hk; simpa [hrk] using hk
        apply hother k m hk2 _ x hx
        intro e
        rw [h1] at e
        injection e with e
        exact hrk e

theorem invSingle_step (sv : Server) (hi : InvSingle sv) (e : Event)
    (hf : firstJoin sv e = true) : InvSingle (step sv e).1 := by
  cases e with
  | connect id =>
    simp only [step]
    cases h : findSocket sv.sockets id with
    | some s => exact hi
    | none =>
      have hne := findSocket_none h
      constructor
      · simp only [List.map_append, List.map_cons, List.map_nil]
        refine List.Nodup.append hi.idsNodup (List.nodup_singleton id) ?_
        simp only [List.disjoint_singleton, List.mem_map, not_exists, not_and]
        intro s hs e
        exact hne s hs e
      · intro r m hm x hx
        obtain ⟨t, ht, h1⟩ := hi.memberLive r m hm x hx
        exact ⟨t, List.mem_append_left _ ht, h1⟩
      · intro t ht
        rcases List.mem_append.mp ht with h1 | h1
        · exact hi.roomIdTruthy t h1
        · simp only [List.mem_singleton] at h1
          subst h1
          simp
  | joinRoom id r =>
    simp only [step]
    cases h : findSocket sv.sockets id with
    | none => exact hi
    | some s0 =>
      simp only [firstJoin, h, Bool.and_eq_true, truthy, decide_eq_true_eq,
        Option.isNone_iff_eq_none] at hf
      exact invSingle_joinRoom sv hi id r s0 h hf.2 hf.1
  | offer id d =>
    simp only [step]
    cases h : findSocket sv.sockets id <;> exact hi
  | answer id d =>
    simp only [step]
    cases h : findSocket sv.sockets id <;> exact hi
  | iceCandidate id d =>
    simp only [step]
    cases h : findSocket sv.sockets id <;> exact hi
  | disconnect id =>
    simp only [step]
    cases h : findSocket sv.sockets id with
    | none => exact hi
    | some s => exact invSingle_disconnect sv hi id s h

theorem invSingle_run (sv : Server) (hi : InvSingle sv) (evs : List Event)
    (hf : singleJoin sv evs = true) : InvSingle (run sv evs) := by
  induction evs generalizing sv with
  | nil => exact hi
  | cons e es ih =>
    simp only [singleJoin, Bool.and_eq_true] at hf
    exact ih _ (invSingle_step sv hi e hf.1) hf.2

/-- C7, amended: in every state reached from the empty registry by a sequence of events
in which each `join-room` names a non-empty room id and comes from a connection with no
recorded room yet, each connection id is a member of at most one participant set. -/
theorem single_room_membership (evs : List Event) (hf : singleJoin init evs = true)
    (x r1 r2 : String) (m1 m2 : List String)
    (h1 : mapGet (run init evs).rooms r1 = some m1) (hx1 : x ∈ m1)
    (h2 : mapGet (run init evs).rooms r2 = some m2) (hx2 : x ∈ m2) : r1 = r2 := by
  have hi := invSingle_run init invSingle_init evs hf
  obtain ⟨s, hs, hsid, hsr⟩ := hi.memberLive r1 m1 h1 x hx1
  obtain ⟨t, ht, htid, htr⟩ := hi.memberLive r2 m2 h2 x hx2
  have : s = t := eq_of_id_eq hi.idsNodup hs ht (hsid.trans htid.symm)
  rw [this, htr] at hsr
  injection hsr with hsr
  exact hsr.symm

theorem single_room_membership_witness :
    singleJoin init [Event.connect "A", Event.connect "B", Event.joinRoom "A" "r1",
      Event.joinRoom "B" "r1", Event.disconnect "A"] = true ∧ "r1" = "r1" :=
  ⟨by decide,
   single_room_membership [Event.connect "A", Event.connect "B", Event.joinRoom "A" "r1",
      Event.joinRoom "B" "r1", Event.disconnect "A"] (by decide) "B" "r1" "r1" ["B"] ["B"]
      (by decide) (by decide) (by decide) (by decide)⟩

/-! ## A repeated `disconnect` -/

theorem onDisconnect_sockets (sv : Server) (s : Socket) :
    (onDisconnect sv s).1.sockets = sv.sockets := by
  cases h1 : s.roomId with
  | none => rw [onDisconnect_noop sv s (Or.inl h1)]
  | some rid =>
    by_cases h2 : rid = ""
    · rw [onDisconnect_noop sv s (Or.inr (Or.inl (h2 ▸ h1)))]
    · cases h3 : mapGet sv.rooms rid with
      | none => rw [onDisconnect_noop sv s (Or.inr (Or.inr ⟨rid, h1, h3⟩))]
      | some room => rw [onDisconnect_eq sv s rid room h1 h2 h3]

theorem findSocket_drop (l : List Socket) (sid : String) :
    findSocket (l.filter (fun x => x.id ≠ sid)) sid = none := by
  unfold findSocket
  apply List.find?_eq_none.mpr
  intro t ht
  simpa using filter_ne_id l sid t ht

/-- C8: in every reachable state, handling `disconnect` for a participant that is in no
participant set (it never joined successfully, or an earlier `disconnect` removed it)
leaves the `rooms` map unchanged and emits no message; and handling `disconnect` a
second time for the same participant returns the state reached by the first unchanged
and emits nothing, so twice gives the same state and the same notifications as once.
The handlers are total functions, so no exception is raised. -/
theorem disconnect_idempotent (evs : List Event) (P : String) :
    ((∀ r m, mapGet (run init evs).rooms r = some m → P ∉ m) →
      (step (run init evs) (Event.disconnect P)).1.rooms = (run init evs).rooms ∧
      (step (run init evs) (Event.disconnect P)).2 = []) ∧
    step (step (run init evs) (Event.disconnect P)).1 (Event.disconnect P) =
      ((step (run init evs) (Event.disconnect P)).1, []) := by
  have hi := inv_run init inv_init evs
  constructor
  · intro hall
    cases hs : findSocket (run init evs).sockets P with
    | none => simp [step, hs]
    | some s =>
      obtain ⟨hsmem, hsid⟩ := findSocket_some hs
      have hnone : s.roomId = none := by
        cases h1 : s.roomId with
        | none => rfl
        | some rid =>
          obtain ⟨m, hm, hmem⟩ := hi.joinedIn s hsmem rid (hi.roomIdJoined s hsmem rid h1)
          exact absurd (hsid ▸ hmem) (hall rid m hm)
      simp only [step, hs]
      rw [onDisconnect_noop _ s (Or.inl hnone)]
      exact ⟨rfl, rfl⟩
  · have hgone : findSocket (step (run init evs) (Event.disconnect P)).1.sockets P = none := by
      cases hs : findSocket (run init evs).sockets P with
      | none => simp [step, hs]
      | some s =>
        simp only [step, hs]
        rw [onDisconnect_sockets]
        exact findSocket_drop _ P
    generalize (step (run init evs) (Event.disconnect P)).1 = sv1 at hgone
    simp [step, hgone]

theorem disconnect_idempotent_witness :
    (step (run init [Event.connect "A", Event.connect "B", Event.joinRoom "A" "r1",
        Event.joinRoom "B" "r1", Event.disconnect "A"]) (Event.disconnect "A")).2 = [] ∧
    step (step (run init [Event.connect "A", Event.connect "B", Event.joinRoom "A" "r1",
        Event.joinRoom "B" "r1"]) (Event.disconnect "A")).1 (Event.disconnect "A") =
      (⟨[("r1", ["B"])], [⟨"B", some "r1", ["r1"]⟩]⟩, []) :=
  ⟨((disconnect_idempotent [Event.connect "A", Event.connect "B", Event.joinRoom "A" "r1",
      Event.joinRoom "B" "r1", Event.disconnect "A"] "A").1 (by
        intro r m h
        have hr : (run init [Event.connect "A", Event.connect "B", Event.joinRoom "A" "r1",
            Event.joinRoom "B" "r1", Event.disconnect "A"]).rooms = [("r1", ["B"])] := by
          decide
        rw [hr] at h
        by_cases hk : "r1" = r
        · simp [mapGet, hk] at h
          subst h
          decide
        · simp [mapGet, hk] at h)).2,
   by decide⟩

/-! ## The client: release of resources and the join sequence -/

/-- C9, counterexample: on `user-disconnected` the peer connection is closed but both
local tracks keep running; on connection state `failed` the tracks keep running and the
peer connection is not closed either. -/
theorem tracks_survive_peer_loss :
    (onUserDisconnected inCall).pcs = [ConnState.closed] ∧
    (onUserDisconnected inCall).localStreamRef =
      some [⟨"video", true, false⟩, ⟨"audio", true, false⟩] ∧
    (connectionFailed inCall 0).pcs = [ConnState.failed] ∧
    (connectionFailed inCall 0).peerConnectionRef = some 0 ∧
    (connectionFailed inCall 0).localStreamRef =
      some [⟨"video", true, false⟩, ⟨"audio", true, false⟩] := by
  decide

theorem track_stop_stop (t : Track) : t.stop.stop = t.stop := rfl

theorem closePc_closePc (pcs : List ConnState) (i : Nat) :
    closePc (closePc pcs i) i = closePc pcs i := by
  unfold closePc
  rw [List.set_set]

/-- C9, amended: explicit leave (`handleLeaveRoom`) stops every track of the local
stream, closes the peer connection the ref points to and disconnects the socket; the
`user-disconnected` listener closes that peer connection and clears the ref but leaves
the local stream as it was; connection state `failed` only sets `connected` to false,
leaving the local stream and the peer connection ref as they were.  Applying any of the
three a second time changes nothing further. -/
theorem release_on_close (c : Client) (i : Nat) :
    ((handleLeaveRoom c).localStreamRef = c.localStreamRef.map (fun ts => ts.map Track.stop) ∧
      (∀ ts, (handleLeaveRoom c).localStreamRef = some ts → ∀ t ∈ ts, t.ended = true) ∧
      (∀ j, c.peerConnectionRef = some j → j < c.pcs.length →
        (handleLeaveRoom c).pcs.get? j = some ConnState.closed) ∧
      (∀ sock, (handleLeaveRoom c).socketRef = some sock → sock.connected = false) ∧
      handleLeaveRoom (handleLeaveRoom c) = handleLeaveRoom c) ∧
    ((∀ j, c.peerConnectionRef = some j → j < c.pcs.length →
        (onUserDisconnected c).pcs.get? j = some ConnState.closed) ∧
      (onUserDisconnected c).peerConnectionRef = none ∧
      (onUserDisconnected c).localStreamRef = c.localStreamRef ∧
      onUserDisconnected (onUserDisconnected c) = onUserDisconnected c) ∧
    ((connectionFailed c i).localStreamRef = c.localStreamRef ∧
      (connectionFailed c i).peerConnectionRef = c.peerConnectionRef ∧
      (connectionFailed c i).pcs = c.pcs.set i ConnState.failed ∧
      (i < c.pcs.length → (connectionFailed c i).connected = false) ∧
      connectionFailed (connectionFailed c i) i = connectionFailed c i) := by
  have hls : (cleanup c).localStreamRef = c.localStreamRef.map (fun ts => ts.map Track.stop) := by
    obtain ⟨rid, jn, cn, ve, ae, er, lv, rv, so, pc, ls, ru, ps⟩ := c
    cases ls <;> cases pc <;> cases so <;> simp [cleanup]
  refine ⟨⟨hls, ?_, ?_, ?_, ?_⟩, ⟨?_, ?_, ?_, ?_⟩, ⟨?_, ?_, ?_, ?_, ?_⟩⟩
  · intro ts hts t ht
    have h2 : (handleLeaveRoom c).localStreamRef = (cleanup c).localStreamRef := rfl
    rw [h2, hls] at hts
    cases hc : c.localStreamRef with
    | none => simp [hc] at hts
    | some ts0 =>
      simp only [hc, Option.map_some', Option.some.injEq] at hts
      subst hts
      obtain ⟨u, _, rfl⟩ := List.mem_map.mp ht
      rfl
  · intro j hj hlt
    obtain ⟨rid, jn, cn, ve, ae, er, lv, rv, so, pc, ls, ru, ps⟩ := c
    simp only at hj hlt
    subst hj
    cases ls <;> cases so <;> simp [handleLeaveRoom, cleanup, closePc, List.getElem?_set, hlt]
  · intro sock hsock
    obtain ⟨rid, jn, cn, ve, ae, er, lv, rv, so, pc, ls, ru, ps⟩ := c
    cases ls <;> cases pc <;> cases so <;>
      simp [handleLeaveRoom, cleanup] at hsock <;> (subst hsock; rfl)
  · obtain ⟨rid, jn, cn, ve, ae, er, lv, rv, so, pc, ls, ru, ps⟩ := c
    cases ls <;> cases pc <;> cases so <;>
      simp [handleLeaveRoom, cleanup, track_stop_stop, closePc_closePc]
  · intro j hj hlt
    obtain ⟨rid, jn, cn, ve, ae, er, lv, rv, so, pc, ls, ru, ps⟩ := c
    simp only at hj hlt
    subst hj
    simp [onUserDisconnected, closePc, List.getElem?_set, hlt]
  · obtain ⟨rid, jn, cn, ve, ae, er, lv, rv, so, pc, ls, ru, ps⟩ := c
    cases pc <;> simp [onUserDisconnected]
  · obtain ⟨rid, jn, cn, ve, ae, er, lv, rv, so, pc, ls, ru, ps⟩ := c
    cases pc <;> simp [onUserDisconnected]
  · obtain ⟨rid, jn, cn, ve, ae, er, lv, rv, so, pc, ls, ru, ps⟩ := c
    cases pc <;> cases rv <;> simp [onUserDisconnected]
  · unfold connectionFailed onConnectionStateChange
    simp only
    split
    · split <;> rfl
    · rfl
  · unfold connectionFailed onConnectionStateChange
    simp only
    split
    · split <;> rfl
    · rfl
  · unfold connectionFailed onConnectionStateChange
    simp only
    split
    · split <;> rfl
    · rfl
  · intro hlt
    unfold connectionFailed onConnectionStateChange
    simp [List.getElem?_set, hlt]
  · by_cases hlt : i < c.pcs.length
    · simp [connectionFailed, onConnectionStateChange, List.getElem?_set, hlt]
    · have hge : c.pcs.length ≤ i := Nat.le_of_not_lt hlt
      simp [connectionFailed, onConnectionStateChange, List.getElem?_eq_none, hge]

/-- C10: when `getUserMedia` fails, `handleJoinRoom` leaves `socketRef` as it was (no
socket is opened, so no listener is registered and no `join-room` is emitted), leaves
`joined` and the local stream ref as they were, and ends with a non-empty error message;
in particular the freshly rendered component, whatever room id was entered, still has no
socket and `joined` false; for a component without a socket, a socket appears only when `getUserMedia` returned a
stream, which is then stored as the local stream, and what that socket has emitted is
the one `join-room` with the room id. -/
theorem no_signaling_without_media (c : Client) (err : JsError) :
    (handleJoinRoom c (Except.error err)).socketRef = c.socketRef ∧
    (handleJoinRoom c (Except.error err)).joined = c.joined ∧
    (handleJoinRoom c (Except.error err)).localStreamRef = c.localStreamRef ∧
    (handleJoinRoom c (Except.error err)).error ≠ "" ∧
    (∀ rid, (handleJoinRoom { Client.initial with roomId := rid } (Except.error err)).socketRef
        = none ∧
      (handleJoinRoom { Client.initial with roomId := rid } (Except.error err)).joined
        = false) ∧
    (∀ media sock, c.socketRef = none → (handleJoinRoom c media).socketRef = some sock →
      ∃ stream, media = Except.ok stream ∧
        (handleJoinRoom c media).localStreamRef = some stream ∧
        sock.listeners = signalingEvents ∧ sock.sent = [("join-room", c.roomId)]) := by
  have hsock : ∀ c : Client, (handleJoinRoom c (Except.error err)).socketRef = c.socketRef := by
    intro c
    unfold handleJoinRoom initializeMedia
    split <;> rfl
  have hjoined : ∀ c : Client, (handleJoinRoom c (Except.error err)).joined = c.joined := by
    intro c
    unfold handleJoinRoom initializeMedia
    split <;> rfl
  refine ⟨hsock c, hjoined c, ?_, ?_, ?_, ?_⟩
  · unfold handleJoinRoom initializeMedia
    split <;> rfl
  · unfold handleJoinRoom initializeMedia
    split
    · simp only [ne_eq]
      decide
    · simp only [ne_eq]
      split
      · assumption
      · decide
  · intro rid
    exact ⟨hsock _, hjoined _⟩
  · intro media sock hnone hsock
    unfold handleJoinRoom initializeMedia at hsock ⊢
    by_cases hb : blank c.roomId = true
    · simp [hb, hnone] at hsock
    · cases media with
      | error e => simp [hb, hnone] at hsock
      | ok stream =>
        simp only [hb, Bool.false_eq_true, if_false, Option.some.injEq] at hsock ⊢
        subst hsock
        exact ⟨stream, rfl, rfl, rfl, rfl⟩

end VideoChat
